import Mathlib

/-!
Verification of the fork-sweeper fetch/filter/delete pipeline.

This file gives a shallow embedding of the core logic of the fork-sweeper
CLI (package `src`): the pagination fetcher `fetchForkedRepos` /
`fetchForkedReposPage`, the filter policy `filterForkedRepos`, and the
deletion fan-out `deleteRepo` / `deleteRepos`.

Modelling conventions:
- Go strings are modelled as `List Char` (`GoStr`).  `strings.ToLower` is
  modelled on the ASCII fragment (the examples in the claims are ASCII);
  `strings.TrimSpace` uses Go's Latin-1 white-space set; `strings.Contains`
  is substring containment.
- Go `time.Time` instants are modelled as nanoseconds since the epoch, as
  `Int`; the record timestamps handled by the claims stay far inside the
  `int64` range.  `t.After(u)` is the strict comparison `u < t`.  The one
  place where 64-bit overflow does matter is the cutoff computation: the Go
  product `time.Duration(-olderThanDays) * 24 * time.Hour` is `int64`
  multiplication with two's-complement wrap around, which overflows once
  `|olderThanDays|` reaches 106752, so that product is wrapped explicitly
  (`wrap64`) in the embedding.
- Network I/O is abstracted: the fetcher is parameterised by the raw page
  contents the server would return for each page number, and the deleter by
  the outcome (`none` = success) of each individual DELETE call.  The error
  path of a page fetch aborts the whole run in the source and is orthogonal
  to the claims treated here, so the page oracle is total.
-/

/-- Go strings, modelled as their character sequences. -/
abbrev GoStr := List Char

/-- A Go `time.Time` instant: nanoseconds since the epoch. -/
abbrev Instant := Int

/-- Go `unicode.IsSpace` on the Latin-1 range: space, tab, newline,
vertical tab, form feed, carriage return, next line, no-break space. -/
def goIsSpace (c : Char) : Bool :=
  c == ' ' || c == '\t' || c == '\n' || c == '\r' ||
  c == Char.ofNat 11 || c == Char.ofNat 12 || c == Char.ofNat 133 || c == Char.ofNat 160

/-- Go `strings.ToLower`, on the ASCII fragment. -/
def goToLower (s : GoStr) : GoStr :=
  s.map Char.toLower

/-- Go `strings.TrimSpace`: drop white space from both ends. -/
def goTrimSpace (s : GoStr) : GoStr :=
  ((s.dropWhile goIsSpace).reverse.dropWhile goIsSpace).reverse

/-- Go `strings.Contains s sub`: `sub` occurs contiguously inside `s`. -/
def goContains (s sub : GoStr) : Bool :=
  decide (sub <:+: s)

/-- Go `t.After(u)`: strictly later. -/
def timeAfter (t u : Instant) : Bool :=
  decide (u < t)

/-- One nanosecond-valued `time.Hour`. -/
def goHour : Int := 3600 * 1000000000

/-- The `repo` struct of `src`: name, html URL, fork flag, owner login and
the three activity timestamps decoded from the listing API. -/
structure Repo where
  name : GoStr
  url : GoStr
  isFork : Bool
  ownerLogin : GoStr
  createdAt : Instant
  updatedAt : Instant
  pushedAt : Instant
deriving DecidableEq

/-- Two's-complement wrap around of Go `int64` arithmetic: the representative
of `x` modulo `2 ^ 64` lying in `[-2 ^ 63, 2 ^ 63)`.  Wrapping the full
product once agrees with Go's wrapping of each intermediate product, since
multiplication is compatible with congruence modulo `2 ^ 64`. -/
def wrap64 (x : Int) : Int :=
  (x + 2 ^ 63) % 2 ^ 64 - 2 ^ 63

/-- Cutoff instant of `filterForkedRepos`:
`now.Add(time.Duration(-olderThanDays) * 24 * time.Hour)`.  The `Duration`
product is `int64` arithmetic and wraps (for `olderThanDays = 150000` the
mathematical product is about `-1.3e19` ns and the wrapped value about
`+5.5e18` ns, a cutoff far in the future), so it is taken modulo `2 ^ 64`. -/
def cutOffDate (now : Instant) (olderThanDays : Int) : Instant :=
  now + wrap64 ((-olderThanDays) * 24 * goHour)

/-- The `hasRecentActivity` test of `filterForkedRepos`:
`repo.PushedAt.After(cutOffDate) || repo.UpdatedAt.After(cutOffDate) ||
repo.CreatedAt.After(cutOffDate)`. -/
def hasRecentActivity (cutOff : Instant) (r : Repo) : Bool :=
  timeAfter r.pushedAt cutOff || timeAfter r.updatedAt cutOff || timeAfter r.createdAt cutOff

/-- One iteration of the guard-name loop of `filterForkedRepos`:
`strings.TrimSpace(name) != "" && strings.Contains(repoName, name)` after
lowercasing both `repo.Name` and the guard entry. -/
def guardNameHit (repoName g : GoStr) : Bool :=
  !(goTrimSpace (goToLower g)).isEmpty && goContains (goToLower repoName) (goToLower g)

/-- The `isGuardedName` flag of `filterForkedRepos`: the guard loop with
`break`, i.e. some entry of `guardedRepoNames` hits. -/
def isGuardedName (r : Repo) (guardedRepoNames : List GoStr) : Bool :=
  guardedRepoNames.any (guardNameHit r.name)

/-- The branch condition of `filterForkedRepos`:
`hasRecentActivity || isGuardedName`. -/
def repoGuarded (cutOff : Instant) (guards : List GoStr) (r : Repo) : Bool :=
  hasRecentActivity cutOff r || isGuardedName r guards

/-- The body of the `filterForkedRepos` loop: append each record to the
guarded or the unguarded accumulator. -/
def filterLoop (cutOff : Instant) (guards : List GoStr) :
    List Repo → List Repo × List Repo → List Repo × List Repo
  | [], acc => acc
  | r :: rest, (unguardedRepos, guardedRepos) =>
    if repoGuarded cutOff guards r then
      filterLoop cutOff guards rest (unguardedRepos, guardedRepos ++ [r])
    else
      filterLoop cutOff guards rest (unguardedRepos ++ [r], guardedRepos)

/-- `filterForkedRepos` of `src`, parameterised by `now` (the source reads
`time.Now()`): partitions `forkedRepos` into `(unguardedRepos, guardedRepos)`,
starting from two empty accumulators. -/
def filterForkedRepos (now : Instant) (forkedRepos : List Repo)
    (guardedRepoNames : List GoStr) (olderThanDays : Int) : List Repo × List Repo :=
  filterLoop (cutOffDate now olderThanDays) guardedRepoNames forkedRepos ([], [])

/-- `fetchForkedReposPage` of `src`, with the HTTP round trip abstracted by
the raw page oracle `pages`: keep only the entries whose fork flag is set. -/
def fetchForkedReposPage (pages : Nat → List Repo) (pageNum : Nat) : List Repo :=
  (pages pageNum).filter (fun r => r.isFork)

/-- The page loop of `fetchForkedRepos`: from `pageNum`, with `fuel`
iterations left of the bound `for pageNum := 1; pageNum <= maxPage; pageNum++`;
`break` as soon as a fetched (fork-filtered) page is empty, else append. -/
def fetchPagesFrom (pages : Nat → List Repo) : Nat → Nat → List Repo
  | _, 0 => []
  | pageNum, fuel + 1 =>
    let repos := fetchForkedReposPage pages pageNum
    if repos.isEmpty then [] else repos ++ fetchPagesFrom pages (pageNum + 1) fuel

/-- `fetchForkedRepos` of `src`: accumulate pages 1 .. `maxPage`, stopping
early at the first page whose fork-filtered contents are empty. -/
def fetchForkedRepos (pages : Nat → List Repo) (maxPage : Nat) : List Repo :=
  fetchPagesFrom pages 1 maxPage

/-- The URL built by `deleteRepo` in the current revision of the library
file: `fmt.Sprintf("%s/repos/%s/%s", baseURL, owner, name)`. -/
def deleteRepoURL (baseURL ownerName repoName : GoStr) : GoStr :=
  baseURL ++ ("/repos/").data ++ ownerName ++ ("/").data ++ repoName

/-- The URL built by `deleteRepo` in `src/src/cli.go`:
`fmt.Sprintf("%s/repos%s/%s", baseURL, owner, name)` - note the missing
slash between the literal `repos` segment and the owner. -/
def deleteRepoURLCli (baseURL ownerName repoName : GoStr) : GoStr :=
  baseURL ++ ("/repos").data ++ ownerName ++ ("/").data ++ repoName

/-- Result of one run of the deletion fan-out `deleteRepos`: which delete
requests were issued (as `(ownerLogin, name)` pairs, one per record handed
in), and the error returned from the capacity-1 error channel. -/
structure DeleteRun (ε : Type) where
  issued : List (GoStr × GoStr)
  result : Option ε

/-- `deleteRepos` of `src`, with each goroutine's network call abstracted by
`del` (`none` = the DELETE succeeded) and the race for the capacity-1 error
channel abstracted by the completion order of the goroutines: every record
gets its request issued, and the returned error is the first failure in
completion order (`none` when every deletion succeeded). -/
def deleteRepos {ε : Type} (del : Repo → Option ε) (order : List Repo) : DeleteRun ε :=
  { issued := order.map (fun r => (r.ownerLogin, r.name))
    result := (order.filterMap del).head? }

/-- A stale fork whose three timestamps all sit exactly on the cutoff
instant of `filterForkedRepos 0 _ _ 0`. -/
def rCut : Repo :=
  { name := ("stale-fork").data, url := [], isFork := true,
    ownerLogin := ("rednafi").data, createdAt := 0, updatedAt := 0, pushedAt := 0 }

/-- A fork named `cpython` with all timestamps strictly before the cutoff of
`filterForkedRepos 1000 _ _ 0`. -/
def rCpy : Repo :=
  { name := ("cpython").data, url := [], isFork := true,
    ownerLogin := ("rednafi").data, createdAt := 0, updatedAt := 0, pushedAt := 0 }

/-- A stale fork whose name contains a literal space before `py`. -/
def rPad : Repo :=
  { name := ("my python").data, url := [], isFork := true,
    ownerLogin := ("rednafi").data, createdAt := 0, updatedAt := 0, pushedAt := 0 }

/-- A stale fork with fresh `pushedAt`, for the recency witness. -/
def rFresh : Repo :=
  { name := ("fresh-fork").data, url := [], isFork := true,
    ownerLogin := ("rednafi").data, createdAt := 0, updatedAt := 0, pushedAt := 2000 }

/-- A non-fork entry, as the listing endpoint may return. -/
def rDocs : Repo :=
  { name := ("docs-site").data, url := [], isFork := false,
    ownerLogin := ("rednafi").data, createdAt := 0, updatedAt := 0, pushedAt := 0 }

/-- A fork entry sitting on page 2 of the paging counterexample. -/
def rLateFork : Repo :=
  { name := ("late-fork").data, url := [], isFork := true,
    ownerLogin := ("rednafi").data, createdAt := 0, updatedAt := 0, pushedAt := 0 }

/-- Page oracle for the paging counterexample: page 1 holds a single
non-fork entry, page 2 holds a single fork, later pages are empty. -/
def pagesC3 : Nat → List Repo :=
  fun n => if n = 1 then [rDocs] else if n = 2 then [rLateFork] else []

/-- Page oracle for the fetch witness: page 1 holds one fork and one
non-fork entry, later pages are empty. -/
def pagesW : Nat → List Repo :=
  fun n => if n = 1 then [rLateFork, rDocs] else []

/-- Three records for the deletion witness. -/
def rDelA : Repo :=
  { name := ("alpha").data, url := [], isFork := true,
    ownerLogin := ("rednafi").data, createdAt := 0, updatedAt := 0, pushedAt := 0 }

def rDelB : Repo :=
  { name := ("beta").data, url := [], isFork := true,
    ownerLogin := ("rednafi").data, createdAt := 0, updatedAt := 0, pushedAt := 0 }

def rDelC : Repo :=
  { name := ("gamma").data, url := [], isFork := true,
    ownerLogin := ("rednafi").data, createdAt := 0, updatedAt := 0, pushedAt := 0 }

/-- Delete outcome for the deletion witness: the `beta` record receives an
HTTP 403, every other deletion succeeds. -/
def delW : Repo → Option Nat :=
  fun r => if r.name = ("beta").data then some 403 else none

/-! ### Helper lemmas -/

/-- The accumulator loop of `filterForkedRepos` appends the two filters of
the remaining records to the accumulators. -/
theorem filterLoop_eq (cutOff : Instant) (guards : List GoStr) (rs : List Repo)
    (u g : List Repo) :
    filterLoop cutOff guards rs (u, g) =
      (u ++ rs.filter (fun r => !repoGuarded cutOff guards r),
       g ++ rs.filter (fun r => repoGuarded cutOff guards r)) := by
  induction rs generalizing u g with
  | nil => simp [filterLoop]
  | cons r rest ih =>
    by_cases h : repoGuarded cutOff guards r
    · simp [filterLoop, h, ih, List.filter_cons]
    · simp [filterLoop, h, ih, List.filter_cons]

/-- The first (unguarded) component of the partition is the filter of the
records the branch condition rejects, in input order. -/
theorem filterForkedRepos_fst_eq (now : Instant) (records : List Repo)
    (guards : List GoStr) (d : Int) :
    (filterForkedRepos now records guards d).1 =
      records.filter (fun r => !repoGuarded (cutOffDate now d) guards r) := by
  simp [filterForkedRepos, filterLoop_eq]

/-- The second (guarded) component of the partition is the filter of the
records the branch condition accepts, in input order. -/
theorem filterForkedRepos_snd_eq (now : Instant) (records : List Repo)
    (guards : List GoStr) (d : Int) :
    (filterForkedRepos now records guards d).2 =
      records.filter (fun r => repoGuarded (cutOffDate now d) guards r) := by
  simp [filterForkedRepos, filterLoop_eq]

/-! ### Claim theorems -/

/-- Claim C1: for every input list of fork records, guard list and
threshold, the two components of `filterForkedRepos` partition the input:
each record occurs in the two outputs jointly exactly as often as in the
input, and no record lies in both outputs. -/
theorem filterForkedRepos_partition (now : Instant) (records : List Repo)
    (guards : List GoStr) (d : Int) (r : Repo) :
    (filterForkedRepos now records guards d).1.count r +
        (filterForkedRepos now records guards d).2.count r = records.count r
    ∧ ((filterForkedRepos now records guards d).1.count r = 0
        ∨ (filterForkedRepos now records guards d).2.count r = 0) := by
  rw [filterForkedRepos_fst_eq, filterForkedRepos_snd_eq]
  constructor
  · have hperm := List.filter_append_perm
      (fun r => repoGuarded (cutOffDate now d) guards r) records
    have := hperm.count_eq r
    rw [List.count_append] at this
    omega
  · by_cases h : repoGuarded (cutOffDate now d) guards r
    · left
      rw [List.count_eq_zero]
      intro hmem
      have := List.of_mem_filter hmem
      simp [h] at this
    · right
      rw [List.count_eq_zero]
      intro hmem
      have := List.of_mem_filter hmem
      simp [h] at this

/-- Claim C8: both outputs of `filterForkedRepos` preserve the relative
input order: the unguarded output is exactly the subsequence of records the
branch condition rejects and the guarded output exactly the subsequence it
accepts, and both are sublists of the input. -/
theorem filterForkedRepos_order_preserved (now : Instant) (records : List Repo)
    (guards : List GoStr) (d : Int) :
    (filterForkedRepos now records guards d).1 =
        records.filter (fun r => !repoGuarded (cutOffDate now d) guards r)
    ∧ (filterForkedRepos now records guards d).2 =
        records.filter (fun r => repoGuarded (cutOffDate now d) guards r)
    ∧ (filterForkedRepos now records guards d).1.Sublist records
    ∧ (filterForkedRepos now records guards d).2.Sublist records := by
  refine ⟨filterForkedRepos_fst_eq now records guards d,
    filterForkedRepos_snd_eq now records guards d, ?_, ?_⟩
  · rw [filterForkedRepos_fst_eq]
    exact List.filter_sublist records
  · rw [filterForkedRepos_snd_eq]
    exact List.filter_sublist records

/-- Claim C2, counterexample: a record whose three timestamps all equal the
cutoff instant exactly is NOT placed in the guarded output (it lands in the
unguarded one), refuting the claim that activity at the cutoff guards. -/
theorem filterForkedRepos_cutoff_boundary_unguarded :
    rCut.pushedAt = cutOffDate 0 0 ∧ rCut.updatedAt = cutOffDate 0 0
    ∧ rCut.createdAt = cutOffDate 0 0
    ∧ rCut ∉ (filterForkedRepos 0 [rCut] [] 0).2
    ∧ rCut ∈ (filterForkedRepos 0 [rCut] [] 0).1 := by
  decide

/-- Claim C2 (amended): a record with at least one timestamp strictly after
the cutoff instant the program computes (`cutOffDate`, whose `int64`
duration product wraps for huge thresholds) is placed in the guarded output
of `filterForkedRepos`; a timestamp equal to the cutoff does not count as
recent activity. -/
theorem filterForkedRepos_strict_recent_guarded (now : Instant) (records : List Repo)
    (guards : List GoStr) (d : Int) (r : Repo) (hmem : r ∈ records)
    (hrec : cutOffDate now d < r.pushedAt ∨ cutOffDate now d < r.updatedAt
      ∨ cutOffDate now d < r.createdAt) :
    r ∈ (filterForkedRepos now records guards d).2 := by
  rw [filterForkedRepos_snd_eq]
  refine List.mem_filter.mpr ⟨hmem, ?_⟩
  have hact : hasRecentActivity (cutOffDate now d) r = true := by
    rcases hrec with h | h | h <;>
      simp [hasRecentActivity, timeAfter, h]
  simp [repoGuarded, hact]

/-- Witness for the amended claim C2, at a record pushed strictly after the
cutoff. -/
theorem filterForkedRepos_strict_recent_guarded_witness :
    rFresh ∈ [rFresh]
    ∧ (cutOffDate 1000 0 < rFresh.pushedAt ∨ cutOffDate 1000 0 < rFresh.updatedAt
        ∨ cutOffDate 1000 0 < rFresh.createdAt)
    ∧ rFresh ∈ (filterForkedRepos 1000 [rFresh] [("py").data] 0).2 :=
  ⟨by decide, by decide,
    filterForkedRepos_strict_recent_guarded 1000 [rFresh] [("py").data] 0 rFresh
      (by decide) (by decide)⟩

/-- The wrapped cutoff in action: at `olderThanDays = 150000` the `int64`
product wraps to about `+5.5e18` ns, the computed cutoff lies far in the
future, and the program leaves even a just-pushed fork unguarded. -/
theorem cutoff_wrap_at_large_threshold :
    2000 < cutOffDate 1000 150000
    ∧ rFresh.pushedAt = 2000
    ∧ rFresh ∈ (filterForkedRepos 1000 [rFresh] [] 150000).1 := by
  decide

/-- Claim C4: a record whose lowercased name contains the lowercasing of at
least one non-blank guard entry is placed in the guarded output of
`filterForkedRepos`, whatever its timestamps are. -/
theorem filterForkedRepos_guard_name_guarded (now : Instant) (records : List Repo)
    (guards : List GoStr) (d : Int) (r : Repo) (hmem : r ∈ records)
    (hg : ∃ g ∈ guards, goTrimSpace (goToLower g) ≠ []
      ∧ goContains (goToLower r.name) (goToLower g) = true) :
    r ∈ (filterForkedRepos now records guards d).2 := by
  rw [filterForkedRepos_snd_eq]
  refine List.mem_filter.mpr ⟨hmem, ?_⟩
  rcases hg with ⟨g, hgmem, hne, hcon⟩
  have hhit : guardNameHit r.name g = true := by
    simp [guardNameHit, hcon, List.isEmpty_iff, hne]
  have hname : isGuardedName r guards = true :=
    List.any_eq_true.mpr ⟨g, hgmem, hhit⟩
  simp [repoGuarded, hname]

/-- Witness for claim C4: the stale, all-zero-timestamp fork `cpython` is
guarded by the entry `PY`. -/
theorem filterForkedRepos_guard_name_guarded_witness :
    rCpy ∈ [rCpy]
    ∧ (∃ g ∈ [("PY").data], goTrimSpace (goToLower g) ≠ []
        ∧ goContains (goToLower rCpy.name) (goToLower g) = true)
    ∧ rCpy ∈ (filterForkedRepos 1000 [rCpy] [("PY").data] 0).2 :=
  ⟨by decide, by decide,
    filterForkedRepos_guard_name_guarded 1000 [rCpy] [("PY").data] 0 rCpy
      (by decide) (by decide)⟩

/-- Lowercasing fixes white-space characters. -/
theorem toLower_of_goIsSpace {c : Char} (h : goIsSpace c = true) : Char.toLower c = c := by
  simp only [goIsSpace, Bool.or_eq_true, beq_iff_eq] at h
  rcases h with ((((((h | h) | h) | h) | h) | h) | h) | h <;> subst h <;> decide

/-- `goTrimSpace` erases a string exactly when every character is white
space. -/
theorem goTrimSpace_eq_nil_iff {s : GoStr} :
    goTrimSpace s = [] ↔ ∀ c ∈ s, goIsSpace c := by
  unfold goTrimSpace
  rw [List.reverse_eq_nil_iff, List.dropWhile_eq_nil_iff]
  constructor
  · intro h c hc
    have hsplit : s.takeWhile goIsSpace ++ s.dropWhile goIsSpace = s :=
      List.takeWhile_append_dropWhile goIsSpace s
    rw [← hsplit] at hc
    rcases List.mem_append.mp hc with h1 | h2
    · exact List.mem_takeWhile_imp h1
    · exact h c (List.mem_reverse.mpr h2)
  · intro h c hc
    exact h c ((List.dropWhile_sublist goIsSpace).mem (List.mem_reverse.mp hc))

/-- A guard entry that trims away stays blank after lowercasing. -/
theorem goTrimSpace_goToLower_eq_nil {g : GoStr} (h : goTrimSpace g = []) :
    goTrimSpace (goToLower g) = [] := by
  rw [goTrimSpace_eq_nil_iff] at h ⊢
  intro c hc
  rcases List.mem_map.mp hc with ⟨a, ha, rfl⟩
  rw [toLower_of_goIsSpace (h a ha)]
  exact h a ha

/-- Claim C5: a guard list made only of blank or white-space-only entries
classifies every record exactly as the empty guard list would. -/
theorem filterForkedRepos_blank_guards_noop (now : Instant) (records : List Repo)
    (guards : List GoStr) (d : Int) (hblank : ∀ g ∈ guards, goTrimSpace g = []) :
    filterForkedRepos now records guards d = filterForkedRepos now records [] d := by
  have hpred : ∀ r : Repo, repoGuarded (cutOffDate now d) guards r
      = repoGuarded (cutOffDate now d) [] r := by
    intro r
    have hname : isGuardedName r guards = false := by
      refine List.any_eq_false.mpr ?_
      intro g hg
      have hnil : goTrimSpace (goToLower g) = [] :=
        goTrimSpace_goToLower_eq_nil (hblank g hg)
      simp [guardNameHit, hnil]
    unfold repoGuarded
    rw [hname]
    simp [isGuardedName]
  have h1 := filterForkedRepos_fst_eq now records guards d
  have h2 := filterForkedRepos_snd_eq now records guards d
  have h1' := filterForkedRepos_fst_eq now records [] d
  have h2' := filterForkedRepos_snd_eq now records [] d
  refine Prod.ext_iff.mpr ⟨?_, ?_⟩
  · rw [h1, h1']
    exact List.filter_congr (fun r _ => by rw [hpred r])
  · rw [h2, h2']
    exact List.filter_congr (fun r _ => by rw [hpred r])

/-- Witness for claim C5, with a space-only and a tab-space guard list. -/
theorem filterForkedRepos_blank_guards_noop_witness :
    (∀ g ∈ [(" ").data, ("\t ").data], goTrimSpace g = [])
    ∧ filterForkedRepos 9 [rCpy] [(" ").data, ("\t ").data] 3
        = filterForkedRepos 9 [rCpy] [] 3 :=
  ⟨by decide,
    filterForkedRepos_blank_guards_noop 9 [rCpy] [(" ").data, ("\t ").data] 3 (by decide)⟩

/-- Every record accumulated by the page loop of `fetchForkedRepos` passed
the fork filter of its page. -/
theorem fetchPagesFrom_isFork (pages : Nat → List Repo) (pageNum fuel : Nat) (r : Repo)
    (h : r ∈ fetchPagesFrom pages pageNum fuel) : r.isFork = true := by
  induction fuel generalizing pageNum with
  | zero => simp [fetchPagesFrom] at h
  | succ fuel ih =>
    simp only [fetchPagesFrom] at h
    split at h
    · simp at h
    · rcases List.mem_append.mp h with h1 | h2
      · exact (List.mem_filter.mp h1).2
      · exact ih _ h2

/-- Claim C9: every record returned by the fetch stage has its fork flag
set; non-fork entries are dropped page by page before accumulation. -/
theorem fetchForkedRepos_only_forks (pages : Nat → List Repo) (maxPage : Nat) (r : Repo)
    (h : r ∈ fetchForkedRepos pages maxPage) : r.isFork = true :=
  fetchPagesFrom_isFork pages 1 maxPage r h

/-- Witness for claim C9: page 1 lists a fork next to a non-fork entry, and
the fork that the fetch returns carries the flag. -/
theorem fetchForkedRepos_only_forks_witness :
    rLateFork ∈ fetchForkedRepos pagesW 3 ∧ rLateFork.isFork = true :=
  ⟨by decide, fetchForkedRepos_only_forks pagesW 3 rLateFork (by decide)⟩

/-- Claim C3: evaluation at the failing input.  Page 1 is non-empty but
holds no fork, page 2 holds a fork; `fetchForkedRepos` nevertheless stops
at page 1 and returns the empty list, so the fork of page 2 is never
fetched - the iteration stops on an empty fork-filtered page, not only on
an empty raw page. -/
theorem fetchForkedRepos_stops_on_fork_filtered_empty :
    pagesC3 1 ≠ [] ∧ (∀ r ∈ pagesC3 1, r.isFork = false)
    ∧ rLateFork ∈ pagesC3 2 ∧ rLateFork.isFork = true
    ∧ fetchForkedRepos pagesC3 2 = [] := by
  decide

/-- Claim C6: evaluation of both revisions of the `deleteRepo` URL format.
The revision in `src/src/cli.go` omits the slash after the literal `repos`
segment, while the current library revision produces the documented
`/repos/` path. -/
theorem deleteRepo_url_formats :
    deleteRepoURLCli ("https://api.github.com").data ("rednafi").data ("cpython").data
        = ("https://api.github.com/reposrednafi/cpython").data
    ∧ deleteRepoURLCli ("https://api.github.com").data ("rednafi").data ("cpython").data
        ≠ deleteRepoURL ("https://api.github.com").data ("rednafi").data ("cpython").data
    ∧ deleteRepoURL ("https://api.github.com").data ("rednafi").data ("cpython").data
        = ("https://api.github.com/repos/rednafi/cpython").data :=
  ⟨rfl, by decide, rfl⟩

/-- Claim C7: for every completion order of the concurrent deletions,
`deleteRepos` returns success exactly when every per-record deletion
succeeded; a returned failure is one that actually occurred on some record;
and a delete request is issued for every record, irrespective of the other
records' outcomes. -/
theorem deleteRepos_failure_semantics {ε : Type} (del : Repo → Option ε)
    (repos order : List Repo) (h : order.Perm repos) :
    ((deleteRepos del order).result = none ↔ ∀ r ∈ repos, del r = none)
    ∧ (∀ e, (deleteRepos del order).result = some e → ∃ r ∈ repos, del r = some e)
    ∧ (deleteRepos del order).issued.length = repos.length
    ∧ (∀ r ∈ repos, (r.ownerLogin, r.name) ∈ (deleteRepos del order).issued) := by
  refine ⟨?_, ?_, ?_, ?_⟩
  · simp only [deleteRepos]
    rw [List.head?_eq_none_iff, List.filterMap_eq_nil_iff]
    constructor
    · intro hall r hr
      exact hall r (h.mem_iff.mpr hr)
    · intro hall r hr
      exact hall r (h.mem_iff.mp hr)
  · intro e he
    simp only [deleteRepos] at he
    rcases List.head?_eq_some_iff.mp he with ⟨ys, hys⟩
    have hmem : e ∈ order.filterMap del := by
      rw [hys]
      exact List.mem_cons_self e ys
    rcases List.mem_filterMap.mp hmem with ⟨r, hr, hdel⟩
    exact ⟨r, h.mem_iff.mp hr, hdel⟩
  · simp only [deleteRepos, List.length_map]
    exact h.length_eq
  · intro r hr
    simp only [deleteRepos]
    exact List.mem_map_of_mem _ (h.mem_iff.mpr hr)

/-- Witness for claim C7: three records, the `beta` one failing with 403,
completing in the order beta, gamma, alpha. -/
theorem deleteRepos_failure_semantics_witness :
    ([rDelB, rDelC, rDelA].Perm [rDelA, rDelB, rDelC])
    ∧ (((deleteRepos delW [rDelB, rDelC, rDelA]).result = none
          ↔ ∀ r ∈ [rDelA, rDelB, rDelC], delW r = none)
      ∧ (∀ e, (deleteRepos delW [rDelB, rDelC, rDelA]).result = some e
          → ∃ r ∈ [rDelA, rDelB, rDelC], delW r = some e)
      ∧ (deleteRepos delW [rDelB, rDelC, rDelA]).issued.length = [rDelA, rDelB, rDelC].length
      ∧ (∀ r ∈ [rDelA, rDelB, rDelC],
          (r.ownerLogin, r.name) ∈ (deleteRepos delW [rDelB, rDelC, rDelA]).issued)) :=
  ⟨by decide,
    deleteRepos_failure_semantics delW [rDelA, rDelB, rDelC] [rDelB, rDelC, rDelA] (by decide)⟩

/-- Claim C10: a non-blank guard entry is matched verbatim after
lowercasing, with no trimming before the containment test: a hit is exactly
containment of the untrimmed lowercased entry, so the padded entry ` py`
does not guard the stale fork `cpython` but does guard `my python`. -/
theorem guardNameHit_untrimmed_match :
    (∀ (repoName g : GoStr), guardNameHit repoName g = true ↔
        (goTrimSpace (goToLower g) ≠ [] ∧ (goToLower g) <:+: (goToLower repoName)))
    ∧ rCpy ∈ (filterForkedRepos 1000 [rCpy] [(" py").data] 0).1
    ∧ rPad ∈ (filterForkedRepos 1000 [rPad] [(" py").data] 0).2 := by
  refine ⟨?_, by decide, by decide⟩
  intro rn g
  simp [guardNameHit, goContains]
